import Mathlib

/-
Verification of the analytics and rate-conversion layer of the
genetic_circuit_generator repository
(synbio_morpher/utils/results/analytics/timeseries.py and
synbio_morpher/utils/modelling/physical.py).

The python code operates elementwise on jax/numpy float arrays.  The
embedding keeps the IEEE-754 special values (NaN, the two infinities, the
negative zero) and represents every other float by an exact rational;
rounding is not modelled, so arithmetic on finite values is exact.  The
jnp.where combinator is elementwise selection, so array functions that are
elementwise are embedded pointwise; reductions along the time axis
(jnp.max, jnp.min, jnp.mean) are embedded as folds over lists, with the
NaN-propagating semantics of the jnp reductions.
-/

namespace Synbio

/-- A value of the floating-point arrays manipulated by the code: NaN, the
two infinities, negative zero, or an exact finite value (`fin 0` is +0). -/
inductive Fl where
  | nan : Fl
  | inf : Fl
  | ninf : Fl
  | nzero : Fl
  | fin : ℚ → Fl
deriving DecidableEq

namespace Fl

/-- Whether the value is NaN. -/
def isNan : Fl → Bool
  | nan => true
  | _ => false

/-- IEEE equality test (==): NaN compares unequal to everything, and the
two zeros compare equal. -/
def eqb : Fl → Fl → Bool
  | nan, _ => false
  | _, nan => false
  | inf, inf => true
  | inf, _ => false
  | _, inf => false
  | ninf, ninf => true
  | ninf, _ => false
  | _, ninf => false
  | nzero, nzero => true
  | nzero, fin q => decide (q = 0)
  | fin q, nzero => decide (q = 0)
  | fin a, fin b => decide (a = b)

/-- The elementwise test `x == 0` (true for both zeros, false for NaN). -/
def isZero (a : Fl) : Bool := eqb a (fin 0)

/-- The elementwise test `x != 0` as it appears in the jnp.where guards
(true for NaN, since NaN compares unequal to everything). -/
def neZero (a : Fl) : Bool := !(eqb a (fin 0))

/-- IEEE strict less-than: false whenever either side is NaN, and the two
zeros are equal. -/
def lt : Fl → Fl → Bool
  | nan, _ => false
  | _, nan => false
  | inf, _ => false
  | _, inf => true
  | ninf, ninf => false
  | ninf, _ => true
  | _, ninf => false
  | nzero, nzero => false
  | nzero, fin q => decide (0 < q)
  | fin q, nzero => decide (q < 0)
  | fin a, fin b => decide (a < b)

/-- IEEE negation. -/
def neg : Fl → Fl
  | nan => nan
  | inf => ninf
  | ninf => inf
  | nzero => fin 0
  | fin q => if q = 0 then nzero else fin (-q)

/-- IEEE addition (exact on finite values; a finite sum that cancels to
zero is +0, as in round-to-nearest). -/
def add : Fl → Fl → Fl
  | nan, _ => nan
  | _, nan => nan
  | inf, ninf => nan
  | ninf, inf => nan
  | inf, _ => inf
  | _, inf => inf
  | ninf, _ => ninf
  | _, ninf => ninf
  | nzero, nzero => nzero
  | nzero, fin q => fin q
  | fin q, nzero => fin q
  | fin a, fin b => fin (a + b)

/-- IEEE subtraction, as addition of the negation. -/
def sub (a b : Fl) : Fl := add a (neg b)

/-- IEEE multiplication (exact on finite values, with the sign of a zero
product determined by the signs of the factors). -/
def mul : Fl → Fl → Fl
  | nan, _ => nan
  | _, nan => nan
  | inf, inf => inf
  | inf, ninf => ninf
  | ninf, inf => ninf
  | ninf, ninf => inf
  | inf, nzero => nan
  | nzero, inf => nan
  | ninf, nzero => nan
  | nzero, ninf => nan
  | inf, fin q => if q = 0 then nan else if 0 < q then inf else ninf
  | fin q, inf => if q = 0 then nan else if 0 < q then inf else ninf
  | ninf, fin q => if q = 0 then nan else if 0 < q then ninf else inf
  | fin q, ninf => if q = 0 then nan else if 0 < q then ninf else inf
  | nzero, nzero => fin 0
  | nzero, fin q => if q < 0 then fin 0 else nzero
  | fin q, nzero => if q < 0 then fin 0 else nzero
  | fin a, fin b =>
      if a * b = 0 then
        (if (a < 0 ∧ 0 ≤ b) ∨ (b < 0 ∧ 0 ≤ a) then nzero else fin 0)
      else fin (a * b)

/-- IEEE division (exact on finite values; a nonzero finite value divided
by a zero is a signed infinity, 0/0 and inf/inf are NaN). -/
def div : Fl → Fl → Fl
  | nan, _ => nan
  | _, nan => nan
  | inf, inf => nan
  | inf, ninf => nan
  | ninf, inf => nan
  | ninf, ninf => nan
  | inf, nzero => ninf
  | inf, fin q => if q < 0 then ninf else inf
  | ninf, nzero => inf
  | ninf, fin q => if q < 0 then inf else ninf
  | nzero, inf => nzero
  | nzero, ninf => fin 0
  | fin q, inf => if q < 0 then nzero else fin 0
  | fin q, ninf => if q < 0 then fin 0 else nzero
  | nzero, nzero => nan
  | nzero, fin q => if q = 0 then nan else if q < 0 then fin 0 else nzero
  | fin a, nzero => if a = 0 then nan else if a < 0 then inf else ninf
  | fin a, fin b =>
      if b = 0 then (if a = 0 then nan else if a < 0 then ninf else inf)
      else if a = 0 then (if b < 0 then nzero else fin 0)
      else fin (a / b)

/-- IEEE absolute value. -/
def abs : Fl → Fl
  | nan => nan
  | inf => inf
  | ninf => inf
  | nzero => fin 0
  | fin q => fin |q|

/-- Binary maximum with the NaN-propagating semantics of jnp.maximum,
used by the jnp.max reduction. -/
def max (a b : Fl) : Fl := if a.isNan || b.isNan then nan else if lt a b then b else a

/-- Binary minimum with the NaN-propagating semantics of jnp.minimum,
used by the jnp.min reduction. -/
def min (a b : Fl) : Fl := if a.isNan || b.isNan then nan else if lt b a then b else a

/-- Cast of a boolean array entry to a float, as performed by numpy when a
boolean array enters an arithmetic operation. -/
def ofBool : Bool → Fl
  | true => fin 1
  | false => fin 0

/-- jnp.sqrt: NaN below zero and on NaN, +infinity on +infinity, and the
signed zeros map to themselves.  On positive finite values the true square
root is irrational in general; this model uses the exact rational square
root Rat.sqrt, which is exact whenever the argument is a ratio of perfect
squares (the only finite values at which this development ever evaluates
it) and a floor-based approximation elsewhere. -/
def sqrt : Fl → Fl
  | nan => nan
  | inf => inf
  | ninf => nan
  | nzero => nzero
  | fin q => if q < 0 then nan else fin (Rat.sqrt q)

end Fl

/-- Reduction jnp.max along an axis (NaN-propagating); jnp rejects an empty
axis, so the empty case never arises on the inputs considered. -/
def listMax : List Fl → Fl
  | [] => Fl.nan
  | x :: xs => xs.foldl Fl.max x

/-- Reduction jnp.min along an axis (NaN-propagating). -/
def listMin : List Fl → Fl
  | [] => Fl.nan
  | x :: xs => xs.foldl Fl.min x

/- Embeddings of the per-species base quantities of generate_base_analytics
(timeseries.py lines 227-233).  A species is a row of the data array, a
list over the time axis. -/

/-- Entry initial_steady_states of the analytics dictionary: the value of
the row at the first time index. -/
def initial_steady_states (row : List Fl) : Fl := row.getD 0 Fl.nan

/-- Entry steady_states of the analytics dictionary: the value of the row
at the last time index. -/
def steady_states (row : List Fl) : Fl := row.getLastD Fl.nan

/-- Entry max_amount: the jnp.max reduction of the row over time. -/
def max_amount (row : List Fl) : Fl := listMax row

/-- Entry min_amount: the jnp.min reduction of the row over time. -/
def min_amount (row : List Fl) : Fl := listMin row

/-- Embedding of compute_fold_change (timeseries.py lines 69-74),
elementwise: the zero denominators are first replaced by the sentinel -1,
and the positions at which the denominator (still) equals -1 become NaN. -/
def compute_fold_change (starting_states steady_states : Fl) : Fl :=
  let denom := if Fl.neZero starting_states then starting_states else Fl.fin (-1)
  if !(Fl.eqb denom (Fl.fin (-1))) then Fl.div steady_states denom else Fl.nan

/-- Embedding of compute_overshoot (timeseries.py lines 77-78). -/
def compute_overshoot (steady_states peaks : Fl) : Fl :=
  Fl.abs (Fl.sub peaks steady_states)

/-- Embedding of compute_peaks (timeseries.py lines 89-91), elementwise.
The source expression for the override branch is
`maxa if peak is mina else mina`: `peak` is the fresh array returned by
jnp.where, so the python identity test `peak is mina` is always False and
the branch always evaluates to `mina`. -/
def compute_peaks (initial_steady_states final_steady_states maxa mina : Fl) : Fl :=
  let peak := if Fl.lt initial_steady_states final_steady_states then maxa else mina
  if Fl.lt initial_steady_states peak then peak else mina

/-- The one-species trajectory of the spec example, [[1, 2, 3, 2, 1]]. -/
def trajA : List Fl := [Fl.fin 1, Fl.fin 2, Fl.fin 3, Fl.fin 2, Fl.fin 1]

/-- Embedding of calculate_precision_core (timeseries.py lines 94-98),
elementwise.  The guard `(starting_states != 0).astype(int)` is an int-cast
boolean used as a jnp.where condition, equivalent to the boolean test. -/
def calculate_precision_core (output_diff starting_states signal_diff signal_0 : Fl) : Fl :=
  let numer := if Fl.neZero signal_0 then Fl.div signal_diff signal_0 else Fl.fin 1
  let denom := if Fl.neZero starting_states then Fl.div output_diff starting_states else Fl.fin 1
  Fl.abs (Fl.div numer denom)

/-- Embedding of compute_precision (timeseries.py lines 102-106),
elementwise over the species arrays; signal_0 and signal_1 are the scalar
signal entries broadcast over species. -/
def compute_precision (starting_states steady_states signal_0 signal_1 : Fl) : Fl :=
  calculate_precision_core (Fl.sub steady_states starting_states) starting_states
    (Fl.sub signal_1 signal_0) signal_0

/-- Embedding of calculate_sensitivity_core (timeseries.py lines 109-117),
elementwise. -/
def calculate_sensitivity_core (output_diff starting_states signal_diff signal_0 : Fl) : Fl :=
  let numer := if Fl.neZero starting_states then
      Fl.div (if Fl.neZero output_diff then output_diff else Fl.nan) starting_states
    else Fl.inf
  if Fl.neZero signal_0 then Fl.abs (Fl.div numer (Fl.div signal_diff signal_0))
  else Fl.inf

/-- Embedding of compute_sensitivity (timeseries.py lines 120-129) at a
valid signal index (the None short-circuit is not taken), elementwise in
the species index i. -/
def compute_sensitivity {n : ℕ} (signal_idx : Fin n) (starting_states peaks : Fin n → Fl)
    (i : Fin n) : Fl :=
  let signal_1 := peaks signal_idx
  let signal_0 := starting_states signal_idx
  let output_diff := Fl.sub (peaks i) (starting_states i)
  let signal_diff := Fl.sub signal_1 signal_0
  calculate_sensitivity_core output_diff (starting_states i) signal_diff signal_0

/-- The sensitivity edge policy as the spec words it: a zero starting state
forces the numerator to +infinity, a zero output difference with nonzero
starting state makes the numerator NaN, a zero initial signal makes the
whole ratio +infinity, and elsewhere the result is the absolute ratio of
the relative output change to the relative signal change. -/
def sensitivity_spec (initial peak signal_initial signal_peak : Fl) : Fl :=
  if Fl.isZero signal_initial then Fl.inf
  else
    Fl.abs (Fl.div
      (if Fl.isZero initial then Fl.inf
       else if Fl.isZero (Fl.sub peak initial) then Fl.nan
       else Fl.div (Fl.sub peak initial) initial)
      (Fl.div (Fl.sub signal_peak signal_initial) signal_initial))

/-- The precision guard policy as the spec words it: the numerator, the
relative signal change, is forced to 1 when the initial signal value is 0,
the denominator, the relative output change, is forced to 1 when the
output starting state is 0, and the result is the absolute value of their
quotient. -/
def precision_spec (signal_initial signal_peak output_initial output_peak : Fl) : Fl :=
  Fl.abs (Fl.div
    (if Fl.isZero signal_initial then Fl.fin 1
     else Fl.div (Fl.sub signal_peak signal_initial) signal_initial)
    (if Fl.isZero output_initial then Fl.fin 1
     else Fl.div (Fl.sub output_peak output_initial) output_initial))

/-- Embedding of eqconstant_to_rates (physical.py lines 53-62),
elementwise: the reverse rate is k_f / eqconstants, and the forward rate is
broadcast to the same shape by multiplying with jnp.ones_like. -/
def eqconstant_to_rates (eqconstants k_f : Fl) : Fl × Fl :=
  let k_r := Fl.div k_f eqconstants
  (Fl.mul k_f (Fl.fin 1), k_r)

/-- Embedding of rates_to_eqconstant (physical.py lines 65-67),
elementwise. -/
def rates_to_eqconstant (k_f k_r : Fl) : Fl :=
  Fl.div k_f k_r

/-- The round trip of C6: convert an equilibrium constant to rates and the
resulting rates back to an equilibrium constant. -/
def rates_round_trip (eqconstants k_f : Fl) : Fl :=
  let rates := eqconstant_to_rates eqconstants k_f
  rates_to_eqconstant rates.1 rates.2

/-- Length of the time axis of a [species, time] array: jnp.shape(data)
squeezed to its last component (the length of a row). -/
def timeLen (m : List (List Fl)) : ℕ := (m.headI).length

/-- np.swapaxes(data, 0, 1) on a 2-D array: entry (j, i) of the result is
entry (i, j) of the input. -/
def swap_axes (m : List (List Fl)) : List (List Fl) :=
  (List.range (timeLen m)).map (fun j => m.map (fun row => row.getD j (Fl.fin 0)))

/-- Embedding of the shape-normalization prefix of generate_analytics
(timeseries.py lines 305-309): if the first axis does not match the label
count, data.shape.index(len(labels)) finds the axis that does (raising
ValueError, modelled as none, when neither axis matches) and the two axes
are swapped.  The returned array is the data on which
generate_base_analytics is then called. -/
def generate_analytics_data (data : List (List Fl)) (labels : List String) :
    Option (List (List Fl)) :=
  if data.length = labels.length then some data
  else if timeLen data = labels.length then some (swap_axes data)
  else none

/-- Embedding of the time-axis component jnp.gradient(data)[1] of
compute_derivative, per species row, with the unit spacing h = 1: the
concatenation of a one-sided first difference, the central differences
(x at j+2 minus x at j) times one half, and a one-sided last difference,
all divided by h. -/
def gradient_along_axis (row : List Fl) : List Fl :=
  let n := row.length
  (List.zipWith Fl.sub ((row.drop 1).take 1) (row.take 1) ++
   List.zipWith (fun a b => Fl.mul (Fl.sub a b) (Fl.fin (1 / 2))) (row.drop 2)
     (row.take (n - 2)) ++
   List.zipWith Fl.sub (row.drop (n - 1)) ((row.drop (n - 2)).take 1)).map
    (fun g => Fl.div g (Fl.fin 1))

/-- Embedding of compute_derivative (timeseries.py lines 62-66).  When the
time axis has at most one sample the result is ones_like(data) times
+infinity.  Otherwise jnp.gradient(data) differentiates along every axis
of the 2-D array and raises ValueError (modelled as none) when any axis
has fewer than 2 elements; the time-axis component [1] is returned. -/
def compute_derivative (data : List (List Fl)) : Option (List (List Fl)) :=
  if timeLen data ≤ 1 then
    some (data.map (fun row => row.map (fun _ => Fl.mul (Fl.fin 1) Fl.inf)))
  else if data.length < 2 ∨ timeLen data < 2 then none
  else some (data.map gradient_along_axis)

/-- Tail of the time-axis gradient as the spec describes it, after the
first entry: central differences (next minus previous) over 2 at interior
points, a one-sided difference at the last point; prev is the element
preceding the head of the argument list. -/
def grad_rest (prev : Fl) : List Fl → List Fl
  | y :: z :: rest => Fl.div (Fl.sub z prev) (Fl.fin 2) :: grad_rest y (z :: rest)
  | [y] => [Fl.sub y prev]
  | [] => []

/-- The discrete gradient along the time axis as the spec describes it:
one-sided difference at the first point, then grad_rest. -/
def gradient_row_spec : List Fl → List Fl
  | x :: y :: rest => Fl.sub y x :: grad_rest x (y :: rest)
  | _ => []

/-- Embedding of compute_step_response_times (timeseries.py lines 154-174)
for one species: data is the species row, t the time vector,
steady_states the species steady state (the broadcast column entry) and
signal_time the onset time.  The code masks the time vector by the
outside-band test, takes the largest masked time tpre, keeps the times
strictly beyond it (zeros replaced by +infinity), and takes their minimum
as tstop. -/
def compute_step_response_times (data t : List Fl) (steady_states signal_time : Fl) : Fl :=
  let perc_settling_time := Fl.fin (1 / 100)
  let hi := Fl.add steady_states (Fl.mul steady_states perc_settling_time)
  let lo := Fl.sub steady_states (Fl.mul steady_states perc_settling_time)
  let is_data_outside_stst := data.map (fun d => Fl.lt hi d || Fl.lt d lo)
  let tpre := listMax (List.zipWith (fun ti b => Fl.mul ti (Fl.ofBool b)) t is_data_outside_stst)
  let t_stable := t.map (fun ti => Fl.mul ti (Fl.ofBool (Fl.lt tpre ti)))
  let t_stable2 := t_stable.map (fun x => if Fl.neZero x then x else Fl.inf)
  let tstop := listMin t_stable2
  if Fl.neZero tstop then Fl.sub tstop signal_time else Fl.inf

/-- The outside-the-band test of the spec: strictly above steady state
plus one percent of it, or strictly below steady state minus one percent
of it. -/
def outside_band (s : ℚ) (d : Fl) : Bool :=
  Fl.lt (Fl.fin (s + s / 100)) d || Fl.lt d (Fl.fin (s - s / 100))

/-- The latest time at which the trajectory is outside the band, as the
code selects it by masking: the maximum over the time vector of the times
at outside positions, with inside positions contributing 0 (so 0 when the
trajectory is never outside). -/
def t_pre_spec (qt : List ℚ) (outside : List Bool) : ℚ :=
  (List.zipWith (fun q b => if b then q else 0) qt outside).foldl max 0

/-- Minimum of a rational list, none when empty. -/
def qmin? : List ℚ → Option ℚ
  | [] => none
  | x :: xs => some (xs.foldl min x)

/-- The response time as the amended claim words it: the earliest time
strictly greater than t_pre minus the onset time, and +infinity when no
time exceeds t_pre (in particular when the trajectory is still outside the
band at the final time). -/
def response_time_spec (qt : List ℚ) (outside : List Bool) (signal_time : ℚ) : Fl :=
  match qmin? (qt.filter (fun q => decide (t_pre_spec qt outside < q))) with
  | none => Fl.inf
  | some tstop => Fl.fin (tstop - signal_time)

/-- Sum of a float list as the jnp reductions compute it. -/
def fpSum (l : List Fl) : Fl := l.foldl Fl.add (Fl.fin 0)

/-- jnp.mean along an axis: the sum divided by the length. -/
def fpMean (l : List Fl) : Fl := Fl.div (fpSum l) (Fl.fin l.length)

/-- A numpy array as shape plus flat data, used where the claims speak
about shapes. -/
structure NDArr where
  shape : List ℕ
  flat : List Fl
deriving DecidableEq

/-- Embedding of compute_rmse (timeseries.py lines 146-151).  With no
reference, jnp.zeros of shape (numSpecies, 1).  With a reference, the
species-wise square root of the mean over the trimmed time axis of the
squared differences, where both arrays are trimmed to the smaller time
length. -/
def compute_rmse (data : List (List Fl)) (ref_circuit_data : Option (List (List Fl))) :
    NDArr :=
  match ref_circuit_data with
  | none => ⟨[data.length, 1], List.replicate data.length (Fl.fin 0)⟩
  | some r =>
      let t_max := Min.min (timeLen data) (timeLen r)
      ⟨[data.length],
        List.zipWith (fun drow rrow =>
          Fl.sqrt (fpMean (List.zipWith (fun a b => Fl.mul (Fl.sub a b) (Fl.sub a b))
            (drow.take t_max) (rrow.take t_max)))) data r⟩

/-- The root-mean-square error as the spec words it: the square root of
the mean, over the time-overlap window of length w, of the squared
differences between the two rows. -/
def rmse_spec (drow rrow : List Fl) (w : ℕ) : Fl :=
  Fl.sqrt (Fl.div
    (fpSum ((List.range w).map (fun j =>
      Fl.mul (Fl.sub (drow.getD j Fl.nan) (rrow.getD j Fl.nan))
        (Fl.sub (drow.getD j Fl.nan) (rrow.getD j Fl.nan)))))
    (Fl.fin w))

/- Helper lemmas about the float operations. -/

/-- Subtraction of finite values is exact. -/
theorem Fl.sub_fin (a b : ℚ) : Fl.sub (Fl.fin a) (Fl.fin b) = Fl.fin (a - b) := by
  by_cases hb : b = 0
  · subst hb
    simp [Fl.sub, Fl.neg, Fl.add]
  · simp [Fl.sub, Fl.neg, Fl.add, hb, sub_eq_add_neg]

/-- Division of nonzero finite values is exact. -/
theorem Fl.div_fin (a b : ℚ) (ha : a ≠ 0) (hb : b ≠ 0) :
    Fl.div (Fl.fin a) (Fl.fin b) = Fl.fin (a / b) := by
  simp [Fl.div, ha, hb]

/-- Absolute value of a finite value. -/
theorem Fl.abs_fin (q : ℚ) : Fl.abs (Fl.fin q) = Fl.fin |q| := rfl

/-- Dividing NaN by anything is NaN. -/
theorem Fl.nan_div (x : Fl) : Fl.div Fl.nan x = Fl.nan := by
  cases x <;> rfl

/-- Multiplying by the float 1 is the identity. -/
theorem Fl.mul_one_fl (x : Fl) : Fl.mul x (Fl.fin 1) = x := by
  rcases x with _ | _ | _ | _ | q
  · rfl
  · norm_num [Fl.mul]
  · norm_num [Fl.mul]
  · norm_num [Fl.mul]
  · by_cases hq : q = 0
    · subst hq
      norm_num [Fl.mul]
    · simp [Fl.mul, hq]

/-- Subtracting a finite value from +infinity gives +infinity. -/
theorem Fl.inf_sub_fin (st : ℚ) : Fl.sub Fl.inf (Fl.fin st) = Fl.inf := by
  by_cases h : st = 0 <;> simp [Fl.sub, Fl.neg, Fl.add, h]

/-- Multiplying a finite value by a positive finite value is exact. -/
theorem mul_fin_pos (a b : ℚ) (hb : 0 < b) :
    Fl.mul (Fl.fin a) (Fl.fin b) = Fl.fin (a * b) := by
  by_cases ha : a = 0
  · subst ha
    simp [Fl.mul, not_lt.mpr hb.le]
  · have h : a * b ≠ 0 := mul_ne_zero ha hb.ne'
    simp [Fl.mul, h]

/-- Multiplying a nonnegative finite value by the float 0 gives +0. -/
theorem mul_fin_zero (q : ℚ) (hq : 0 ≤ q) :
    Fl.mul (Fl.fin q) (Fl.fin 0) = Fl.fin 0 := by
  simp [Fl.mul, not_lt.mpr hq]

/-- Fl.max on finite values is the rational maximum. -/
theorem fl_max_fin (a b : ℚ) : Fl.max (Fl.fin a) (Fl.fin b) = Fl.fin (Max.max a b) := by
  rcases lt_or_le a b with h | h
  · simp [Fl.max, Fl.isNan, Fl.lt, h, max_eq_right h.le]
  · simp [Fl.max, Fl.isNan, Fl.lt, not_lt.mpr h, max_eq_left h]

/-- Folding Fl.max over finite values is the rational maximum fold. -/
theorem foldl_max_map_fin : ∀ (l : List ℚ) (a : ℚ),
    List.foldl Fl.max (Fl.fin a) (l.map Fl.fin) = Fl.fin (List.foldl Max.max a l) := by
  intro l
  induction l with
  | nil => intro a; rfl
  | cons x xs ih =>
      intro a
      simp only [List.map_cons, List.foldl_cons, fl_max_fin]
      exact ih (Max.max a x)

/-- The seed of a maximum fold bounds the fold from below. -/
theorem le_foldl_max : ∀ (l : List ℚ) (a : ℚ), a ≤ List.foldl Max.max a l := by
  intro l
  induction l with
  | nil => intro a; simp
  | cons x xs ih =>
      intro a
      simp only [List.foldl_cons]
      exact le_trans (le_max_left a x) (ih (Max.max a x))

/-- Fl.min on finite values is the rational minimum. -/
theorem fl_min_fin (a b : ℚ) : Fl.min (Fl.fin a) (Fl.fin b) = Fl.fin (Min.min a b) := by
  rcases lt_or_le b a with h | h
  · simp [Fl.min, Fl.isNan, Fl.lt, h, min_eq_right h.le]
  · simp [Fl.min, Fl.isNan, Fl.lt, not_lt.mpr h, min_eq_left h]

/-- Fl.min of a finite value and +infinity. -/
theorem fl_min_fin_inf (a : ℚ) : Fl.min (Fl.fin a) Fl.inf = Fl.fin a := by
  simp [Fl.min, Fl.isNan, Fl.lt]

/-- Fl.min of +infinity and a finite value. -/
theorem fl_min_inf_fin (b : ℚ) : Fl.min Fl.inf (Fl.fin b) = Fl.fin b := by
  simp [Fl.min, Fl.isNan, Fl.lt]

/-- Fl.min of +infinity with itself. -/
theorem fl_min_inf_inf : Fl.min Fl.inf Fl.inf = Fl.inf := by
  simp [Fl.min, Fl.isNan, Fl.lt]

/-- Masking a nonnegative rational time vector by a boolean vector, as the
code does with t times the outside mask, equals the rational masked
vector mapped into floats. -/
theorem masked_map_fin : ∀ (qs : List ℚ) (bs : List Bool), (∀ q ∈ qs, 0 ≤ q) →
    List.zipWith (fun ti b => Fl.mul ti (Fl.ofBool b)) (qs.map Fl.fin) bs =
      (List.zipWith (fun q b => if b then q else 0) qs bs).map Fl.fin := by
  intro qs
  induction qs with
  | nil => intro bs _; simp
  | cons q l ih =>
      intro bs hpos
      rcases bs with _ | ⟨b, bs⟩
      · simp
      · simp only [List.map_cons, List.zipWith_cons_cons]
        rw [ih bs (fun x hx => hpos x (by simp [hx]))]
        rcases b with _ | _
        · rw [show Fl.ofBool false = Fl.fin 0 from rfl,
            mul_fin_zero q (hpos q (by simp))]
          simp
        · rw [show Fl.ofBool true = Fl.fin 1 from rfl, Fl.mul_one_fl]
          simp

/-- The masked rational time vector is entrywise nonnegative when the time
vector is. -/
theorem masked_nonneg : ∀ (qs : List ℚ) (bs : List Bool), (∀ q ∈ qs, 0 ≤ q) →
    ∀ x ∈ List.zipWith (fun q b => if b then q else 0) qs bs, 0 ≤ x := by
  intro qs
  induction qs with
  | nil => intro bs _ x hx; simp at hx
  | cons q l ih =>
      intro bs hpos x hx
      rcases bs with _ | ⟨b, bs⟩
      · simp at hx
      · simp only [List.zipWith_cons_cons, List.mem_cons] at hx
        rcases hx with rfl | hx
        · rcases b with _ | _
          · simp
          · simpa using hpos q (by simp)
        · exact ih bs (fun y hy => hpos y (by simp [hy])) x hx

/-- Folding Fl.min from a finite seed over the infinity-padded list keeps
exactly the rational minimum over the entries beyond the threshold. -/
theorem foldl_min_map_fin_filter : ∀ (l : List ℚ) (a P : ℚ),
    List.foldl Fl.min (Fl.fin a) (l.map (fun q => if P < q then Fl.fin q else Fl.inf)) =
      Fl.fin (List.foldl Min.min a (l.filter (fun q => decide (P < q)))) := by
  intro l
  induction l with
  | nil => intro a P; rfl
  | cons q xs ih =>
      intro a P
      by_cases h : P < q
      · have hd : (decide (P < q)) = true := by simpa using h
        simp only [List.map_cons, List.foldl_cons, if_pos h, List.filter_cons, hd,
          if_true, fl_min_fin]
        exact ih (Min.min a q) P
      · have hd : (decide (P < q)) = false := by simpa using h
        simp only [List.map_cons, List.foldl_cons, if_neg h, List.filter_cons, hd]
        rw [fl_min_fin_inf]
        simpa using ih a P

/-- Folding Fl.min from the +infinity seed over the infinity-padded list
gives the rational minimum of the entries beyond the threshold, or
+infinity when there is none. -/
theorem foldl_min_inf_map : ∀ (l : List ℚ) (P : ℚ),
    List.foldl Fl.min Fl.inf (l.map (fun q => if P < q then Fl.fin q else Fl.inf)) =
      (match qmin? (l.filter (fun q => decide (P < q))) with
       | none => Fl.inf
       | some m => Fl.fin m) := by
  intro l
  induction l with
  | nil => intro P; rfl
  | cons q xs ih =>
      intro P
      by_cases h : P < q
      · have hd : (decide (P < q)) = true := by simpa using h
        simp only [List.map_cons, List.foldl_cons, if_pos h, fl_min_inf_fin,
          List.filter_cons, hd, if_true]
        rw [foldl_min_map_fin_filter]
        rfl
      · have hd : (decide (P < q)) = false := by simpa using h
        simp only [List.map_cons, List.foldl_cons, if_neg h, fl_min_inf_inf,
          List.filter_cons, hd]
        simpa using ih P

/-- The minimum step of the response-time computation: listMin of the
infinity-padded masked times is the minimum beyond the threshold. -/
theorem listMin_g (q0 : ℚ) (qs : List ℚ) (P : ℚ) :
    listMin ((q0 :: qs).map (fun q => if P < q then Fl.fin q else Fl.inf)) =
      (match qmin? ((q0 :: qs).filter (fun q => decide (P < q))) with
       | none => Fl.inf
       | some m => Fl.fin m) := by
  by_cases h : P < q0
  · have hd : (decide (P < q0)) = true := by simpa using h
    simp only [List.map_cons, if_pos h, listMin]
    rw [foldl_min_map_fin_filter]
    simp [List.filter_cons, hd, qmin?]
  · have hd : (decide (P < q0)) = false := by simpa using h
    simp only [List.map_cons, if_neg h, listMin]
    rw [foldl_min_inf_map]
    simp [List.filter_cons, hd]

/-- A minimum fold over entries above a threshold stays above it. -/
theorem gt_foldl_min : ∀ (l : List ℚ) (x P : ℚ), P < x → (∀ y ∈ l, P < y) →
    P < List.foldl Min.min x l := by
  intro l
  induction l with
  | nil => intro x P hx _; exact hx
  | cons y ys ih =>
      intro x P hx h
      simp only [List.foldl_cons]
      exact ih (Min.min x y) P (lt_min hx (h y (by simp))) (fun z hz => h z (by simp [hz]))

/-- The minimum of the filtered time list is above the threshold. -/
theorem qmin?_filter_gt (P : ℚ) (l : List ℚ) (m : ℚ)
    (h : qmin? (l.filter (fun q => decide (P < q))) = some m) : P < m := by
  rcases hf : l.filter (fun q => decide (P < q)) with _ | ⟨x, xs⟩
  · rw [hf] at h
    simp [qmin?] at h
  · rw [hf] at h
    simp only [qmin?, Option.some.injEq] at h
    subst h
    have hx : P < x := by
      have hmem : x ∈ l.filter (fun q => decide (P < q)) := by
        rw [hf]
        exact List.mem_cons_self x xs
      simpa using (List.mem_filter.mp hmem).2
    refine gt_foldl_min xs x P hx ?_
    intro y hy
    have hmem : y ∈ l.filter (fun q => decide (P < q)) := by
      rw [hf]
      exact List.mem_cons_of_mem _ hy
    simpa using (List.mem_filter.mp hmem).2

/-- getD through zipWith, within bounds. -/
theorem getD_zipWith {α β γ : Type} (f : α → β → γ) :
    ∀ (as : List α) (bs : List β) (i : ℕ) (za : α) (zb : β) (zc : γ),
      i < as.length → i < bs.length →
      (List.zipWith f as bs).getD i zc = f (as.getD i za) (bs.getD i zb) := by
  intro as
  induction as with
  | nil => intro bs i za zb zc h _; simp at h
  | cons a as ih =>
      intro bs i za zb zc h1 h2
      rcases bs with _ | ⟨b, bs⟩
      · simp at h2
      · rcases i with _ | i
        · rfl
        · simp only [List.zipWith_cons_cons, List.getD_cons_succ]
          exact ih bs i za zb zc (by simpa using h1) (by simpa using h2)

/-- zipWith over two prefixes of length w, written by index over the
range. -/
theorem zipWith_take_eq_range {α β γ : Type} (f : α → β → γ) (za : α) (zb : β) :
    ∀ (w : ℕ) (d : List α) (r : List β), w ≤ d.length → w ≤ r.length →
      List.zipWith f (d.take w) (r.take w) =
        (List.range w).map (fun j => f (d.getD j za) (r.getD j zb)) := by
  intro w
  induction w with
  | zero => intro d r _ _; simp
  | succ w ih =>
      intro d r hd hr
      rcases d with _ | ⟨a, d⟩
      · simp at hd
      · rcases r with _ | ⟨b, r⟩
        · simp at hr
        · have hcomp : ((fun j => f ((a :: d).getD j za) ((b :: r).getD j zb)) ∘ Nat.succ) =
              (fun j => f (d.getD j za) (r.getD j zb)) := by
            funext j
            simp
          rw [List.range_succ_eq_map, List.map_cons, List.map_map, hcomp,
            List.take_succ_cons, List.take_succ_cons, List.zipWith_cons_cons,
            ih d r (by simpa using hd) (by simpa using hr)]
          simp

/- Claim theorems. -/

/-- C1, counterexample.  On the spec example trajectory [[1,2,3,2,1]] the
code yields peak 1 (not 3) and overshoot 0 (not 2): initial and final
steady states are both 1, so the first jnp.where selects min_amount 1, and
the tie-break override also yields min_amount because the identity test
`peak is mina` on the fresh jnp.where result is always False. -/
theorem compute_peaks_tiebreak_cex :
    compute_peaks (initial_steady_states trajA) (steady_states trajA)
        (max_amount trajA) (min_amount trajA) = Fl.fin 1 ∧
      Fl.fin 1 ≠ Fl.fin 3 ∧
      compute_overshoot (steady_states trajA)
        (compute_peaks (initial_steady_states trajA) (steady_states trajA)
          (max_amount trajA) (min_amount trajA)) = Fl.fin 0 ∧
      Fl.fin 0 ≠ Fl.fin 2 := by
  have hpk : compute_peaks (initial_steady_states trajA) (steady_states trajA)
      (max_amount trajA) (min_amount trajA) = Fl.fin 1 := by decide
  have hst : steady_states trajA = Fl.fin 1 := by decide
  refine ⟨hpk, by decide, ?_, by decide⟩
  rw [compute_overshoot, hpk, hst, Fl.sub_fin]
  norm_num [Fl.abs_fin]

/-- C1, amended.  compute_peaks selects maxAmount when
steadyState > initialSteadyState and minAmount otherwise, and whenever
initialSteadyState is not below the chosen value the peak is forced to
minAmount (the identity tie-break `maxa if peak is mina else mina` always
takes its else branch, because `peak` is a fresh array): if the chosen
value is maxAmount and initialSteadyState is below it the result is
maxAmount, otherwise the result is minAmount.  For the example trajectory
[[1,2,3,2,1]], peak resolves to 1 and overshoot to 0. -/
theorem compute_peaks_tiebreak_amended :
    (∀ i f ma mi : Fl,
       (Fl.lt i f = true → Fl.lt i ma = true → compute_peaks i f ma mi = ma) ∧
       (Fl.lt i f = false → compute_peaks i f ma mi = mi) ∧
       (Fl.lt i f = true → Fl.lt i ma = false → compute_peaks i f ma mi = mi)) ∧
    compute_peaks (initial_steady_states trajA) (steady_states trajA)
        (max_amount trajA) (min_amount trajA) = Fl.fin 1 ∧
    compute_overshoot (steady_states trajA)
        (compute_peaks (initial_steady_states trajA) (steady_states trajA)
          (max_amount trajA) (min_amount trajA)) = Fl.fin 0 := by
  have hpk : compute_peaks (initial_steady_states trajA) (steady_states trajA)
      (max_amount trajA) (min_amount trajA) = Fl.fin 1 := by decide
  have hst : steady_states trajA = Fl.fin 1 := by decide
  have hov : compute_overshoot (steady_states trajA)
      (compute_peaks (initial_steady_states trajA) (steady_states trajA)
        (max_amount trajA) (min_amount trajA)) = Fl.fin 0 := by
    rw [compute_overshoot, hpk, hst, Fl.sub_fin]
    norm_num [Fl.abs_fin]
  refine ⟨fun i f ma mi => ⟨?_, ?_, ?_⟩, hpk, hov⟩
  · intro h1 h2
    simp [compute_peaks, h1, h2]
  · intro h1
    simp [compute_peaks, h1]
  · intro h1 h2
    simp [compute_peaks, h1, h2]

/-- C1, witness for the amended theorem: at initial 1, final 2, max 3,
min 1 the first clause applies and the peak is the maximum 3. -/
theorem compute_peaks_tiebreak_amended_witness :
    Fl.lt (Fl.fin 1) (Fl.fin 2) = true ∧ Fl.lt (Fl.fin 1) (Fl.fin 3) = true ∧
      compute_peaks (Fl.fin 1) (Fl.fin 2) (Fl.fin 3) (Fl.fin 1) = Fl.fin 3 :=
  ⟨by decide, by decide,
    (compute_peaks_tiebreak_amended.1 (Fl.fin 1) (Fl.fin 2) (Fl.fin 3) (Fl.fin 1)).1
      (by decide) (by decide)⟩

/-- C2, counterexample.  compute_fold_change is NaN at a starting state of
-1 even though -1 is nonzero, because -1 is the internal sentinel for a
zero denominator; the claimed value there would be 5 / (-1) = -5. -/
theorem fold_change_nan_positions_cex :
    compute_fold_change (Fl.fin (-1)) (Fl.fin 5) = Fl.nan ∧
      Fl.div (Fl.fin 5) (Fl.fin (-1)) = Fl.fin (-5) ∧
      Fl.nan ≠ Fl.fin (-5) ∧ (Fl.fin (-1)).isZero = false := by
  refine ⟨by decide, ?_, by decide, by decide⟩
  rw [Fl.div_fin 5 (-1) (by norm_num) (by norm_num)]
  norm_num

/-- C2, amended.  compute_fold_change returns NaN at the positions where
the starting state equals 0 (either zero) or equals -1, and returns
steadyState / initialSteadyState at every other position. -/
theorem fold_change_nan_positions_amended :
    ∀ ss st : Fl,
      ((ss.isZero = true ∨ ss = Fl.fin (-1)) → compute_fold_change ss st = Fl.nan) ∧
      (ss.isZero = false → ss ≠ Fl.fin (-1) →
        compute_fold_change ss st = Fl.div st ss) := by
  intro ss st
  constructor
  · rintro (h | rfl)
    · rcases ss with _ | _ | _ | _ | q
      · simp [Fl.isZero, Fl.eqb] at h
      · simp [Fl.isZero, Fl.eqb] at h
      · simp [Fl.isZero, Fl.eqb] at h
      · simp [compute_fold_change, Fl.neZero, Fl.eqb]
      · have hq : q = 0 := by simpa [Fl.isZero, Fl.eqb] using h
        subst hq
        norm_num [compute_fold_change, Fl.neZero, Fl.eqb]
    · norm_num [compute_fold_change, Fl.neZero, Fl.eqb]
  · intro h1 h2
    rcases ss with _ | _ | _ | _ | q
    · simp [compute_fold_change, Fl.neZero, Fl.eqb]
    · simp [compute_fold_change, Fl.neZero, Fl.eqb]
    · simp [compute_fold_change, Fl.neZero, Fl.eqb]
    · simp [Fl.isZero, Fl.eqb] at h1
    · have hq : q ≠ 0 := by simpa [Fl.isZero, Fl.eqb] using h1
      have hq1 : q ≠ -1 := fun h => h2 (by rw [h])
      simp [compute_fold_change, Fl.neZero, Fl.eqb, hq, hq1]

/-- C2, witness for the amended theorem: at starting state 2 and steady
state 6 neither guard fires and the fold change is the quotient 3. -/
theorem fold_change_nan_positions_amended_witness :
    (Fl.fin 2).isZero = false ∧ Fl.fin 2 ≠ Fl.fin (-1) ∧
      compute_fold_change (Fl.fin 2) (Fl.fin 6) = Fl.div (Fl.fin 6) (Fl.fin 2) ∧
      compute_fold_change (Fl.fin 2) (Fl.fin 6) = Fl.fin 3 :=
  ⟨by decide, by decide,
    (fold_change_nan_positions_amended (Fl.fin 2) (Fl.fin 6)).2 (by decide) (by decide),
    by
      rw [(fold_change_nan_positions_amended (Fl.fin 2) (Fl.fin 6)).2 (by decide) (by decide),
        Fl.div_fin 6 2 (by norm_num) (by norm_num)]
      norm_num⟩

/-- C3.  The sensitivity computation (calculate_sensitivity_core via
compute_sensitivity) satisfies the spec edge policy elementwise: a zero
starting state forces the numerator to +infinity, a zero output difference
with nonzero starting state gives a NaN numerator, a zero initial signal
value forces the whole ratio to +infinity, and elsewhere the result is
the ratio of relative changes in absolute value. -/
theorem sensitivity_edge_policy :
    ∀ (n : ℕ) (signal_idx : Fin n) (starting_states peaks : Fin n → Fl) (i : Fin n),
      compute_sensitivity signal_idx starting_states peaks i =
        sensitivity_spec (starting_states i) (peaks i)
          (starting_states signal_idx) (peaks signal_idx) := by
  intro n signal_idx ss pk i
  unfold compute_sensitivity calculate_sensitivity_core sensitivity_spec
  have hz : ∀ x : Fl, Fl.neZero x = !Fl.isZero x := fun _ => rfl
  rcases h0 : Fl.isZero (ss signal_idx) <;>
    rcases h1 : Fl.isZero (ss i) <;>
      rcases h2 : Fl.isZero (Fl.sub (pk i) (ss i)) <;>
        simp [hz, h0, h1, h2, Fl.nan_div]

/-- C4.  The precision computation (compute_precision via
calculate_precision_core) satisfies the asymmetric guard policy
elementwise: a zero initial signal value forces the numerator to 1 (not
+infinity as in sensitivity), a zero output starting state forces the
denominator to 1, and the result is the absolute value of the quotient of
the relative signal change by the relative output change. -/
theorem precision_guard_policy :
    ∀ starting_states steady_states signal_0 signal_1 : Fl,
      compute_precision starting_states steady_states signal_0 signal_1 =
        precision_spec signal_0 signal_1 starting_states steady_states := by
  intro ss st s0 s1
  unfold compute_precision calculate_precision_core precision_spec
  have hz : ∀ x : Fl, Fl.neZero x = !Fl.isZero x := fun _ => rfl
  rcases h0 : Fl.isZero s0 <;> rcases h1 : Fl.isZero ss <;> simp [hz, h0, h1]

/-- C5, counterexample.  The trajectory [1, 1, 1] with steady state 1 and
time vector [0, 1, 2] never leaves the 1 percent band after the onset time
0, yet the response time is 1, not +infinity: with no time outside the
band tpre is 0, the times strictly beyond 0 are kept, and their minimum 1
minus the onset gives 1. -/
theorem step_response_cex :
    compute_step_response_times [Fl.fin 1, Fl.fin 1, Fl.fin 1]
        [Fl.fin 0, Fl.fin 1, Fl.fin 2] (Fl.fin 1) (Fl.fin 0) = Fl.fin 1 ∧
      Fl.fin 1 ≠ Fl.inf := by
  refine ⟨?_, by decide⟩
  have hmul : Fl.mul (Fl.fin 1) (Fl.fin (1 / 100)) = Fl.fin (1 / 100) := by
    rw [mul_fin_pos 1 (1 / 100) (by norm_num)]
    norm_num
  simp only [compute_step_response_times, hmul]
  norm_num [Fl.add, Fl.sub_fin, Fl.lt, Fl.ofBool, Fl.mul_one_fl, mul_fin_zero,
    listMax, listMin, Fl.max, Fl.min, Fl.isNan, Fl.neZero, Fl.eqb, Fl.mul]

/-- C5, amended.  For a nonempty, entrywise nonnegative rational time
vector, a finite steady state and a finite onset time, the response time
is t_stop minus the onset time where t_stop is the earliest time strictly
greater than t_pre, the latest time at which the trajectory is outside the
1 percent band (0 when it never is); and when no time exceeds t_pre (in
particular when the trajectory is still outside the band at the final
time) the result is +infinity.  A trajectory that never leaves the band
therefore gets the earliest positive time minus the onset, not
+infinity. -/
theorem step_response_amended :
    ∀ (data : List Fl) (qt : List ℚ) (s st : ℚ),
      qt ≠ [] → data.length = qt.length → (∀ q ∈ qt, 0 ≤ q) →
      compute_step_response_times data (qt.map Fl.fin) (Fl.fin s) (Fl.fin st) =
        response_time_spec qt (data.map (outside_band s)) st := by
  intro data qt s st hne hlen hpos
  have hmul : Fl.mul (Fl.fin s) (Fl.fin (1 / 100)) = Fl.fin (s / 100) := by
    rw [mul_fin_pos s (1 / 100) (by norm_num), mul_one_div]
  have hpt : (fun d => Fl.lt (Fl.add (Fl.fin s) (Fl.mul (Fl.fin s) (Fl.fin (1 / 100)))) d ||
      Fl.lt d (Fl.sub (Fl.fin s) (Fl.mul (Fl.fin s) (Fl.fin (1 / 100))))) = outside_band s := by
    funext d
    rw [hmul]
    simp [outside_band, Fl.add, Fl.sub_fin]
  simp only [compute_step_response_times, hpt]
  set os := data.map (outside_band s) with hosdef
  have hoslen : os.length = qt.length := by
    rw [hosdef, List.length_map, hlen]
  have hmask : List.zipWith (fun ti b => Fl.mul ti (Fl.ofBool b)) (qt.map Fl.fin) os =
      (List.zipWith (fun q b => if b then q else 0) qt os).map Fl.fin :=
    masked_map_fin qt os hpos
  have hmlen : (List.zipWith (fun q b => if b then q else 0) qt os).length = qt.length := by
    rw [List.length_zipWith, hoslen, min_self]
  obtain ⟨m0, ms, hM⟩ : ∃ m0 ms,
      List.zipWith (fun q b => if b then q else 0) qt os = m0 :: ms := by
    rcases hzw : List.zipWith (fun q b => if b then q else 0) qt os with _ | ⟨m0, ms⟩
    · exfalso
      rw [hzw] at hmlen
      exact hne (List.length_eq_zero.mp hmlen.symm)
    · exact ⟨m0, ms, hzw⟩
  have hmnn : ∀ x ∈ (m0 :: ms), 0 ≤ x := by
    rw [← hM]
    exact masked_nonneg qt os hpos
  have hP : t_pre_spec qt os = List.foldl Max.max m0 ms := by
    rw [t_pre_spec, hM]
    simp only [List.foldl_cons]
    rw [max_eq_right (hmnn m0 (by simp))]
  have hPnn : 0 ≤ t_pre_spec qt os := by
    rw [hP]
    exact le_trans (hmnn m0 (by simp)) (le_foldl_max ms m0)
  have htpre : listMax (List.zipWith (fun ti b => Fl.mul ti (Fl.ofBool b))
      (qt.map Fl.fin) os) = Fl.fin (t_pre_spec qt os) := by
    rw [hmask, hM, hP]
    simp only [List.map_cons, listMax]
    exact foldl_max_map_fin ms m0
  rw [htpre]
  have hstable : ((qt.map Fl.fin).map (fun ti =>
        Fl.mul ti (Fl.ofBool (Fl.lt (Fl.fin (t_pre_spec qt os)) ti)))).map
          (fun x => if Fl.neZero x then x else Fl.inf) =
      qt.map (fun q => if t_pre_spec qt os < q then Fl.fin q else Fl.inf) := by
    rw [List.map_map, List.map_map]
    apply List.map_congr_left
    intro q hq
    simp only [Function.comp]
    by_cases h : t_pre_spec qt os < q
    · have h1 : Fl.lt (Fl.fin (t_pre_spec qt os)) (Fl.fin q) = true := by
        simp [Fl.lt, h]
      have h2 : q ≠ 0 := (lt_of_le_of_lt hPnn h).ne'
      simp [h1, Fl.ofBool, Fl.mul_one_fl, Fl.neZero, Fl.eqb, h2, h]
    · have h1 : Fl.lt (Fl.fin (t_pre_spec qt os)) (Fl.fin q) = false := by
        simp [Fl.lt, h]
      simp [h1, Fl.ofBool, mul_fin_zero q (hpos q hq), Fl.neZero, Fl.eqb, h]
  rw [hstable]
  obtain ⟨q0, qs, rfl⟩ := List.exists_cons_of_ne_nil hne
  rw [listMin_g q0 qs (t_pre_spec (q0 :: qs) os)]
  simp only [response_time_spec]
  rcases hq : qmin? ((q0 :: qs).filter (fun q => decide (t_pre_spec (q0 :: qs) os < q)))
      with _ | m
  · simp [hq, Fl.neZero, Fl.eqb, Fl.inf_sub_fin st]
  · have hm : t_pre_spec (q0 :: qs) os < m := qmin?_filter_gt _ _ _ hq
    have hm0 : m ≠ 0 := (lt_of_le_of_lt hPnn hm).ne'
    simp [hq, Fl.neZero, Fl.eqb, hm0, Fl.sub_fin]

/-- C5, witness for the amended theorem: trajectory [2, 0, 0] with steady
state 0, times [1, 2, 3] and onset 0 is outside the band only at time 1,
so t_pre is 1, t_stop is 2 and the response time is 2. -/
theorem step_response_amended_witness :
    ([1, 2, 3] : List ℚ) ≠ [] ∧
      ([Fl.fin 2, Fl.fin 0, Fl.fin 0] : List Fl).length = ([1, 2, 3] : List ℚ).length ∧
      (∀ q ∈ ([1, 2, 3] : List ℚ), 0 ≤ q) ∧
      compute_step_response_times [Fl.fin 2, Fl.fin 0, Fl.fin 0]
          (([1, 2, 3] : List ℚ).map Fl.fin) (Fl.fin 0) (Fl.fin 0) = Fl.fin 2 :=
  ⟨by decide, by decide, by decide,
    (step_response_amended [Fl.fin 2, Fl.fin 0, Fl.fin 0] [1, 2, 3] 0 0 (by decide)
        (by decide) (by decide)).trans
      (by norm_num [response_time_spec, t_pre_spec, outside_band, qmin?, Fl.lt])⟩

/-- C6, counterexample.  The claim quantifies over every forward rate, but
a forward rate of 0 breaks the round trip at the ordinary equilibrium
constant 2 (which is neither +infinity nor 0): the derived reverse rate is
0/2 = 0, and converting back gives 0/0 = NaN, not 2. -/
theorem rates_round_trip_cex :
    rates_round_trip (Fl.fin 2) (Fl.fin 0) = Fl.nan ∧
      Fl.nan ≠ Fl.fin 2 ∧ Fl.fin 2 ≠ Fl.inf ∧ (Fl.fin 2).isZero = false := by
  refine ⟨?_, by decide, by decide, by decide⟩
  norm_num [rates_round_trip, eqconstant_to_rates, rates_to_eqconstant, Fl.div, Fl.mul]

/-- C6, amended.  For every finite nonzero forward rate, applying
eqconstant_to_rates and then rates_to_eqconstant to its output returns the
original equilibrium constant, except (as in the claim, which asserts
nothing there) at positions where the original equilibrium constant was
+infinity or 0. -/
theorem rates_round_trip_amended :
    ∀ (eqc : Fl) (c : ℚ), c ≠ 0 → eqc ≠ Fl.inf → eqc.isZero = false →
      rates_round_trip eqc (Fl.fin c) = eqc := by
  intro eqc c hc hinf hz
  rcases eqc with _ | _ | _ | _ | q
  · simp [rates_round_trip, eqconstant_to_rates, rates_to_eqconstant, Fl.mul_one_fl,
      Fl.div]
  · exact absurd rfl hinf
  · rcases lt_trichotomy c 0 with h | h | h
    · simp [rates_round_trip, eqconstant_to_rates, rates_to_eqconstant, Fl.mul_one_fl,
        Fl.div, h, not_lt.mpr h.le, hc]
    · exact absurd h hc
    · simp [rates_round_trip, eqconstant_to_rates, rates_to_eqconstant, Fl.mul_one_fl,
        Fl.div, h, not_lt.mpr h.le, hc]
  · simp [Fl.isZero, Fl.eqb] at hz
  · have hq : q ≠ 0 := by simpa [Fl.isZero, Fl.eqb] using hz
    have hcq : c / q ≠ 0 := div_ne_zero hc hq
    have key : c / (c / q) = q := by
      field_simp
    simp [rates_round_trip, eqconstant_to_rates, rates_to_eqconstant, Fl.mul_one_fl,
      Fl.div, hq, hc, hcq, key]

/-- C6, witness for the amended theorem: with forward rate 2 the
equilibrium constant 3 survives the round trip. -/
theorem rates_round_trip_amended_witness :
    (2 : ℚ) ≠ 0 ∧ Fl.fin 3 ≠ Fl.inf ∧ (Fl.fin 3).isZero = false ∧
      rates_round_trip (Fl.fin 3) (Fl.fin 2) = Fl.fin 3 :=
  ⟨by norm_num, by decide, by decide,
    rates_round_trip_amended (Fl.fin 3) 2 (by norm_num) (by decide) (by decide)⟩

/-- C7.  compute_rmse with no reference is the all-zero array of shape
(numSpecies, 1); with a reference and rectangular rows, the result is a
flat array of shape (numSpecies) whose entry for species i is the
root-mean-square error between the rows of data and reference over the
time-overlap window of length min(len(data_time), len(reference_time)). -/
theorem rmse_spec_correct :
    (∀ data : List (List Fl),
      compute_rmse data none =
        ⟨[data.length, 1], List.replicate data.length (Fl.fin 0)⟩) ∧
    (∀ (data r : List (List Fl)) (i : ℕ),
      data.length = r.length → i < data.length →
      (data.getD i []).length = timeLen data →
      (r.getD i []).length = timeLen r →
      (compute_rmse data (some r)).shape = [data.length] ∧
        (compute_rmse data (some r)).flat.getD i Fl.nan =
          rmse_spec (data.getD i []) (r.getD i [])
            (Min.min (timeLen data) (timeLen r))) := by
  constructor
  · intro data
    rfl
  · intro data r i hlen hi hd hr
    refine ⟨rfl, ?_⟩
    have hzw : (compute_rmse data (some r)).flat =
        List.zipWith (fun drow rrow => Fl.sqrt (fpMean (List.zipWith (fun a b =>
          Fl.mul (Fl.sub a b) (Fl.sub a b))
            (drow.take (Min.min (timeLen data) (timeLen r)))
            (rrow.take (Min.min (timeLen data) (timeLen r)))))) data r := rfl
    rw [hzw, getD_zipWith _ data r i [] [] Fl.nan hi (by omega)]
    have hwd : Min.min (timeLen data) (timeLen r) ≤ (data.getD i []).length := by
      rw [hd]
      exact min_le_left _ _
    have hwr : Min.min (timeLen data) (timeLen r) ≤ (r.getD i []).length := by
      rw [hr]
      exact min_le_right _ _
    rw [zipWith_take_eq_range (fun a b => Fl.mul (Fl.sub a b) (Fl.sub a b)) Fl.nan Fl.nan
      (Min.min (timeLen data) (timeLen r)) _ _ hwd hwr]
    simp only [rmse_spec, fpMean, List.length_map, List.length_range]

/-- C7, witness: one species, data row [4, 9] against reference row [1],
window length 1. -/
theorem rmse_spec_correct_witness :
    ([[Fl.fin 4, Fl.fin 9]] : List (List Fl)).length =
        ([[Fl.fin 1]] : List (List Fl)).length ∧
      0 < ([[Fl.fin 4, Fl.fin 9]] : List (List Fl)).length ∧
      (([[Fl.fin 4, Fl.fin 9]] : List (List Fl)).getD 0 []).length =
        timeLen [[Fl.fin 4, Fl.fin 9]] ∧
      (([[Fl.fin 1]] : List (List Fl)).getD 0 []).length = timeLen [[Fl.fin 1]] ∧
      (compute_rmse [[Fl.fin 4, Fl.fin 9]] (some [[Fl.fin 1]])).shape = [1] ∧
      (compute_rmse [[Fl.fin 4, Fl.fin 9]] (some [[Fl.fin 1]])).flat.getD 0 Fl.nan =
        rmse_spec [Fl.fin 4, Fl.fin 9] [Fl.fin 1]
          (Min.min (timeLen [[Fl.fin 4, Fl.fin 9]]) (timeLen [[Fl.fin 1]])) := by
  have h := rmse_spec_correct.2 [[Fl.fin 4, Fl.fin 9]] [[Fl.fin 1]] 0 (by decide)
    (by decide) (by decide) (by decide)
  exact ⟨by decide, by decide, by decide, by decide, by simpa using h.1, by simpa using h.2⟩

/-- C8.  Evaluation of compute_derivative at the failing input [[1, 2]]:
one species, two time points.  The claim (and the evident intent of the
function, which guards the degenerate time axis instead of erroring) is
the time-axis gradient [[1, 1]], but jnp.gradient differentiates every
axis and rejects the length-1 species axis, so the call raises instead of
returning it. -/
theorem derivative_single_species_fails :
    compute_derivative [[Fl.fin 1, Fl.fin 2]] = none ∧
      gradient_row_spec [Fl.fin 1, Fl.fin 2] = [Fl.fin 1, Fl.fin 1] := by
  constructor
  · decide
  · norm_num [gradient_row_spec, grad_rest, Fl.sub_fin]

/-- C9.  If neither axis of the trajectory has length equal to the number
of labels, generate_analytics fails with an invalid-input error (the
ValueError raised by data.shape.index) instead of returning a misaligned
analytics dictionary; and when only the second axis matches the label
count, the data is normalized by swapping the two axes, after which the
species axis length equals the number of labels. -/
theorem analytics_shape_guard :
    ∀ (data : List (List Fl)) (labels : List String),
      (data.length ≠ labels.length → timeLen data ≠ labels.length →
        generate_analytics_data data labels = none) ∧
      (data.length ≠ labels.length → timeLen data = labels.length →
        generate_analytics_data data labels = some (swap_axes data) ∧
          (swap_axes data).length = labels.length) := by
  intro data labels
  constructor
  · intro h1 h2
    simp [generate_analytics_data, h1, h2]
  · intro h1 h2
    refine ⟨by simp [generate_analytics_data, h1, h2], ?_⟩
    simp [swap_axes, h2]

/-- C9, witness: a 1-by-3 array with two labels is rejected, and a 1-by-2
array with two labels is transposed to a 2-by-1 array. -/
theorem analytics_shape_guard_witness :
    generate_analytics_data [[Fl.fin 1, Fl.fin 2, Fl.fin 3]] ["A", "B"] = none ∧
      (generate_analytics_data [[Fl.fin 1, Fl.fin 2]] ["A", "B"] =
          some (swap_axes [[Fl.fin 1, Fl.fin 2]]) ∧
        (swap_axes [[Fl.fin 1, Fl.fin 2]]).length =
          (["A", "B"] : List String).length) :=
  ⟨(analytics_shape_guard [[Fl.fin 1, Fl.fin 2, Fl.fin 3]] ["A", "B"]).1
      (by decide) (by decide),
    (analytics_shape_guard [[Fl.fin 1, Fl.fin 2]] ["A", "B"]).2
      (by decide) (by decide)⟩

/-- C10.  compute_fold_change also returns NaN at every position where the
starting state equals -1 (a nonzero value), because -1 is the internal
zero-baseline sentinel; a starting state of -1 is therefore
indistinguishable from a zero baseline in the fold-change output. -/
theorem fold_change_neg_one_sentinel :
    ∀ st : Fl,
      compute_fold_change (Fl.fin (-1)) st = Fl.nan ∧
      compute_fold_change (Fl.fin (-1)) st = compute_fold_change (Fl.fin 0) st := by
  intro st
  constructor <;> simp [compute_fold_change, Fl.neZero, Fl.eqb]

end Synbio
